import Mathlib

/-!
Verification of the media-scripts file-redistribution tools
(`consolidate_files.py` and `split_dir.py`) against their specification.

The filesystem is modelled as an association list from path strings to file
contents (byte lists).  SHA-256 is modelled as an arbitrary hash function
parameter; the bytes that land at the destination of a cross-filesystem copy
are modelled by a `corrupt` function applied to the source content, so that
corrupted copies (size or checksum mismatches) are expressible.
-/

namespace Toolbox

/-- File contents: a list of bytes. -/
abbrev Content := List Nat

/-- The filesystem: a finite map from path strings to contents,
as an association list (the first matching key wins). -/
abbrev FS := List (String × Content)

/-- Look a path up in the filesystem. -/
def lookupFS : FS → String → Option Content
  | [], _ => none
  | e :: rest, p => if e.1 = p then some e.2 else lookupFS rest p

/-- Create or overwrite the file at path `p`. -/
def insertFS (p : String) (c : Content) (fs : FS) : FS := (p, c) :: fs

/-- Delete the file at path `p` (`Path.unlink`). -/
def eraseFS (p : String) (fs : FS) : FS := fs.filter (fun e => !(e.1 == p))

theorem lookupFS_insert_self (p : String) (c : Content) (fs : FS) :
    lookupFS (insertFS p c fs) p = some c := by
  simp [insertFS, lookupFS]

theorem lookupFS_insert_ne {q p : String} (h : q ≠ p) (c : Content) (fs : FS) :
    lookupFS (insertFS p c fs) q = lookupFS fs q := by
  simp [insertFS, lookupFS, Ne.symm h]

theorem lookupFS_erase_self (p : String) (fs : FS) :
    lookupFS (eraseFS p fs) p = none := by
  induction fs with
  | nil => rfl
  | cons e rest ih =>
    by_cases h : e.1 = p
    · simpa [eraseFS, List.filter_cons, h] using ih
    · simpa [eraseFS, List.filter_cons, h, lookupFS] using ih

theorem lookupFS_erase_ne {q p : String} (h : q ≠ p) (fs : FS) :
    lookupFS (eraseFS p fs) q = lookupFS fs q := by
  induction fs with
  | nil => rfl
  | cons e rest ih =>
    by_cases h1 : e.1 = p
    · have h2 : e.1 ≠ q := by rw [h1]; exact Ne.symm h
      simpa [eraseFS, List.filter_cons, h1, h2, lookupFS, h, Ne.symm h] using ih
    · by_cases h2 : e.1 = q
      · simp [eraseFS, List.filter_cons, lookupFS, h1, h2, h, Ne.symm h]
      · simpa [eraseFS, List.filter_cons, lookupFS, h1, h2, h, Ne.symm h] using ih

/-! ## The safe-move primitive (`move_file` in both scripts) -/

/-- Errors surfaced by `move_file`:
`destinationExists` models the `FileExistsError` of the no-clobber guard,
`otherOSError` models a re-raised `OSError` whose errno is not `EXDEV`
(or a missing source), `copySizeMismatch` and `checksumMismatch` model the
two `RuntimeError`s of the copy fallback. -/
inductive MoveError where
  | destinationExists
  | otherOSError
  | copySizeMismatch
  | checksumMismatch
deriving DecidableEq, Repr

/-- Outcome of the initial `src.rename(dest)` attempt:
success, failure with `errno == EXDEV` (cross-device), or any other OS error. -/
inductive RenameOutcome where
  | renameOk
  | renameExdev
  | renameErr
deriving DecidableEq, Repr

/-- Observable I/O events of one `move_file` call, in order:
checksumming the source, the successful rename, the `shutil.copy2`,
checksumming the destination, deleting the destination, deleting the source. -/
inductive Ev where
  | evChecksumSrc
  | evRenamed
  | evCopied
  | evChecksumDest
  | evUnlinkDest
  | evUnlinkSrc
deriving DecidableEq, Repr

/-- `move_file` of `consolidate_files.py` (lines 99-130).  `ro` is the outcome
of the rename attempt, `corrupt` gives the bytes that actually land at `dest`
when the copy fallback runs, `hash` models SHA-256.  Returns the error if any,
the resulting filesystem, and the trace of I/O events. -/
def move_file (ro : RenameOutcome) (corrupt : Content → Content)
    (hash : Content → Nat) (verify : Bool) (fs : FS) (src dest : String) :
    Option MoveError × FS × List Ev :=
  if (lookupFS fs dest).isSome then
    (some .destinationExists, fs, [])
  else
    match lookupFS fs src with
    | none => (some .otherOSError, fs, [])
    | some content =>
      let ev0 : List Ev := if verify then [.evChecksumSrc] else []
      match ro with
      | .renameOk => (none, insertFS dest content (eraseFS src fs), ev0 ++ [.evRenamed])
      | .renameErr => (some .otherOSError, fs, ev0)
      | .renameExdev =>
        let copied := corrupt content
        let fs1 := insertFS dest copied fs
        if content.length ≠ copied.length then
          (some .copySizeMismatch, eraseFS dest fs1, ev0 ++ [.evCopied, .evUnlinkDest])
        else if verify ∧ hash content ≠ hash copied then
          (some .checksumMismatch, eraseFS dest fs1,
            ev0 ++ [.evCopied, .evChecksumDest, .evUnlinkDest])
        else
          (none, eraseFS src fs1,
            ev0 ++ (if verify then [.evCopied, .evChecksumDest, .evUnlinkSrc]
                    else [.evCopied, .evUnlinkSrc]))

/-- `move_file` of `split_dir.py` (lines 75-93): the same routine without the
checksum-verification option. -/
def move_file_split (ro : RenameOutcome) (corrupt : Content → Content)
    (fs : FS) (src dest : String) : Option MoveError × FS × List Ev :=
  if (lookupFS fs dest).isSome then
    (some .destinationExists, fs, [])
  else
    match lookupFS fs src with
    | none => (some .otherOSError, fs, [])
    | some content =>
      match ro with
      | .renameOk => (none, insertFS dest content (eraseFS src fs), [.evRenamed])
      | .renameErr => (some .otherOSError, fs, [])
      | .renameExdev =>
        let copied := corrupt content
        let fs1 := insertFS dest copied fs
        if content.length ≠ copied.length then
          (some .copySizeMismatch, eraseFS dest fs1, [.evCopied, .evUnlinkDest])
        else
          (none, eraseFS src fs1, [.evCopied, .evUnlinkSrc])

/-- On every failure of `move_file`, the filesystem is pointwise unchanged,
the destination is absent after a size- or checksum-mismatch failure, and the
source is never deleted (no `evUnlinkSrc` in a failing trace). -/
theorem move_file_fail_spec (ro : RenameOutcome) (corrupt : Content → Content)
    (hash : Content → Nat) (verify : Bool) (fs : FS) (src dest : String)
    (err : MoveError) (fs' : FS) (tr : List Ev)
    (hrun : move_file ro corrupt hash verify fs src dest = (some err, fs', tr)) :
    (∀ p, lookupFS fs' p = lookupFS fs p) ∧
    ((err = .copySizeMismatch ∨ err = .checksumMismatch) → lookupFS fs' dest = none) ∧
    Ev.evUnlinkSrc ∉ tr := by
  unfold move_file at hrun
  cases hdest : lookupFS fs dest with
  | some c =>
    rw [hdest] at hrun
    simp only [Option.isSome_some, if_pos, Prod.mk.injEq, Option.some.injEq] at hrun
    obtain ⟨he, hfs, htr⟩ := hrun
    subst hfs; subst htr
    refine ⟨fun p => rfl, ?_, by simp⟩
    rintro (h | h) <;> simp [← he] at h
  | none =>
    rw [hdest] at hrun
    simp only [Option.isSome_none, Bool.false_eq_true, if_false] at hrun
    cases hsrc : lookupFS fs src with
    | none =>
      rw [hsrc] at hrun
      simp only [Prod.mk.injEq, Option.some.injEq] at hrun
      obtain ⟨he, hfs, htr⟩ := hrun
      subst hfs; subst htr
      refine ⟨fun p => rfl, ?_, by simp⟩
      rintro (h | h) <;> simp [← he] at h
    | some content =>
      rw [hsrc] at hrun
      cases ro with
      | renameOk => simp at hrun
      | renameErr =>
        simp only [Prod.mk.injEq, Option.some.injEq] at hrun
        obtain ⟨he, hfs, htr⟩ := hrun
        subst hfs; subst htr
        refine ⟨fun p => rfl, ?_, ?_⟩
        · rintro (h | h) <;> simp [← he] at h
        · cases verify <;> simp
      | renameExdev =>
        cases verify with
        | false =>
          simp only [Bool.false_eq_true, if_false, false_and, List.nil_append] at hrun
          split_ifs at hrun with hsz
          · simp only [Prod.mk.injEq, Option.some.injEq] at hrun
            obtain ⟨he, hfs, htr⟩ := hrun
            subst hfs; subst htr
            refine ⟨?_, fun _ => lookupFS_erase_self _ _, by simp⟩
            intro p
            by_cases hp : p = dest
            · subst hp; rw [lookupFS_erase_self, hdest]
            · rw [lookupFS_erase_ne hp, lookupFS_insert_ne hp]
          · simp at hrun
        | true =>
          simp only [if_true, true_and] at hrun
          split_ifs at hrun with hsz hck
          · simp only [Prod.mk.injEq, Option.some.injEq] at hrun
            obtain ⟨he, hfs, htr⟩ := hrun
            subst hfs; subst htr
            refine ⟨?_, fun _ => lookupFS_erase_self _ _, by simp⟩
            intro p
            by_cases hp : p = dest
            · subst hp; rw [lookupFS_erase_self, hdest]
            · rw [lookupFS_erase_ne hp, lookupFS_insert_ne hp]
          · simp only [Prod.mk.injEq, Option.some.injEq] at hrun
            obtain ⟨he, hfs, htr⟩ := hrun
            subst hfs; subst htr
            refine ⟨?_, fun _ => lookupFS_erase_self _ _, by simp⟩
            intro p
            by_cases hp : p = dest
            · subst hp; rw [lookupFS_erase_self, hdest]
            · rw [lookupFS_erase_ne hp, lookupFS_insert_ne hp]
          · simp at hrun

/-- Failure analysis for the split-tool variant of `move_file`. -/
theorem move_file_split_fail_spec (ro : RenameOutcome) (corrupt : Content → Content)
    (fs : FS) (src dest : String)
    (err : MoveError) (fs' : FS) (tr : List Ev)
    (hrun : move_file_split ro corrupt fs src dest = (some err, fs', tr)) :
    (∀ p, lookupFS fs' p = lookupFS fs p) ∧
    (err = .copySizeMismatch → lookupFS fs' dest = none) ∧
    Ev.evUnlinkSrc ∉ tr := by
  unfold move_file_split at hrun
  cases hdest : lookupFS fs dest with
  | some c =>
    rw [hdest] at hrun
    simp only [Option.isSome_some, if_pos, Prod.mk.injEq, Option.some.injEq] at hrun
    obtain ⟨he, hfs, htr⟩ := hrun
    subst hfs; subst htr
    exact ⟨fun p => rfl, fun h => by simp [← he] at h, by simp⟩
  | none =>
    rw [hdest] at hrun
    simp only [Option.isSome_none, Bool.false_eq_true, if_false] at hrun
    cases hsrc : lookupFS fs src with
    | none =>
      rw [hsrc] at hrun
      simp only [Prod.mk.injEq, Option.some.injEq] at hrun
      obtain ⟨he, hfs, htr⟩ := hrun
      subst hfs; subst htr
      exact ⟨fun p => rfl, fun h => by simp [← he] at h, by simp⟩
    | some content =>
      rw [hsrc] at hrun
      cases ro with
      | renameOk => simp at hrun
      | renameErr =>
        simp only [Prod.mk.injEq, Option.some.injEq] at hrun
        obtain ⟨he, hfs, htr⟩ := hrun
        subst hfs; subst htr
        exact ⟨fun p => rfl, fun h => by simp [← he] at h, by simp⟩
      | renameExdev =>
        dsimp only at hrun
        split_ifs at hrun with hsz
        · simp only [Prod.mk.injEq, Option.some.injEq] at hrun
          obtain ⟨he, hfs, htr⟩ := hrun
          subst hfs; subst htr
          refine ⟨?_, fun _ => lookupFS_erase_self _ _, by simp⟩
          intro p
          by_cases hp : p = dest
          · subst hp; rw [lookupFS_erase_self, hdest]
          · rw [lookupFS_erase_ne hp, lookupFS_insert_ne hp]
        · simp at hrun

/-- C1: whenever either `move_file` fails — in particular on the
`CopySizeMismatch` and `ChecksumMismatch` paths of the cross-filesystem copy
fallback — the filesystem is left pointwise as it was (so the source keeps its
original content), the destination is absent after a mismatch failure, and the
source is never unlinked on any failure path. -/
theorem claim_c1_safe_move_cleanup (ro : RenameOutcome) (corrupt : Content → Content)
    (hash : Content → Nat) (verify : Bool) (fs : FS) (src dest : String)
    (err : MoveError) (fs' : FS) (tr : List Ev) :
    (move_file ro corrupt hash verify fs src dest = (some err, fs', tr) →
      (∀ p, lookupFS fs' p = lookupFS fs p) ∧
      ((err = .copySizeMismatch ∨ err = .checksumMismatch) → lookupFS fs' dest = none) ∧
      Ev.evUnlinkSrc ∉ tr) ∧
    (move_file_split ro corrupt fs src dest = (some err, fs', tr) →
      (∀ p, lookupFS fs' p = lookupFS fs p) ∧
      (err = .copySizeMismatch → lookupFS fs' dest = none) ∧
      Ev.evUnlinkSrc ∉ tr) :=
  ⟨move_file_fail_spec ro corrupt hash verify fs src dest err fs' tr,
   move_file_split_fail_spec ro corrupt fs src dest err fs' tr⟩

/-- Witness for C1: a concrete cross-filesystem move whose copy comes back
truncated fails with a size mismatch, deletes the partial destination and
leaves the source byte-for-byte intact. -/
theorem claim_c1_witness :
    lookupFS (eraseFS "d" (insertFS "d" [] [("s", [1, 2])])) "d" = none ∧
    lookupFS (eraseFS "d" (insertFS "d" [] [("s", [1, 2])])) "s" =
      lookupFS [("s", [1, 2])] "s" :=
  ⟨((claim_c1_safe_move_cleanup .renameExdev (fun _ => []) (fun c => c.length) true
      [("s", [1, 2])] "s" "d" .copySizeMismatch
      (eraseFS "d" (insertFS "d" [] [("s", [1, 2])]))
      [.evChecksumSrc, .evCopied, .evUnlinkDest]).1 (by decide)).2.1 (Or.inl rfl),
   ((claim_c1_safe_move_cleanup .renameExdev (fun _ => []) (fun c => c.length) true
      [("s", [1, 2])] "s" "d" .copySizeMismatch
      (eraseFS "d" (insertFS "d" [] [("s", [1, 2])]))
      [.evChecksumSrc, .evCopied, .evUnlinkDest]).1 (by decide)).1 "s"⟩

/-- C2: if the destination already exists, both `move_file` variants fail with
`DestinationExists` and return the filesystem exactly as it was, with an empty
I/O trace: the source is unchanged and no file is overwritten. -/
theorem claim_c2_no_clobber (ro : RenameOutcome) (corrupt : Content → Content)
    (hash : Content → Nat) (verify : Bool) (fs : FS) (src dest : String)
    (c : Content) (h : lookupFS fs dest = some c) :
    move_file ro corrupt hash verify fs src dest = (some .destinationExists, fs, []) ∧
    move_file_split ro corrupt fs src dest = (some .destinationExists, fs, []) := by
  constructor
  · unfold move_file; rw [h]; rfl
  · unfold move_file_split; rw [h]; rfl

/-- Witness for C2: moving onto an existing `"d"` is rejected and is a no-op. -/
theorem claim_c2_witness :
    move_file .renameOk id (fun c => c.length) false [("s", [1]), ("d", [2])] "s" "d" =
      (some .destinationExists, [("s", [1]), ("d", [2])], []) ∧
    move_file_split .renameOk id [("s", [1]), ("d", [2])] "s" "d" =
      (some .destinationExists, [("s", [1]), ("d", [2])], []) :=
  claim_c2_no_clobber .renameOk id (fun c => c.length) false
    [("s", [1]), ("d", [2])] "s" "d" [2] (by decide)

/-- C10: in the consolidation tool, when the same-filesystem rename succeeds
under `verify = true`, the call returns success with the trace
`[evChecksumSrc, evRenamed]`: the SHA-256 of the source is computed before the
rename attempt, and no destination checksum is ever computed or compared
(no `evChecksumDest` in the trace) — verification happens only on the
cross-device copy path. -/
theorem claim_c10_rename_skips_verification (corrupt : Content → Content)
    (hash : Content → Nat) (fs : FS) (src dest : String) (content : Content)
    (hdest : lookupFS fs dest = none) (hsrc : lookupFS fs src = some content) :
    move_file .renameOk corrupt hash true fs src dest =
      (none, insertFS dest content (eraseFS src fs), [.evChecksumSrc, .evRenamed]) ∧
    Ev.evChecksumDest ∉ [Ev.evChecksumSrc, Ev.evRenamed] := by
  refine ⟨?_, by simp⟩
  unfold move_file
  rw [hdest, hsrc]
  rfl

/-- Witness for C10: a concrete same-filesystem verified move renames without
comparing checksums. -/
theorem claim_c10_witness :
    move_file .renameOk id (fun c => c.length) true [("s", [7])] "s" "d" =
      (none, insertFS "d" [7] (eraseFS "s" [("s", [7])]),
        [.evChecksumSrc, .evRenamed]) :=
  (claim_c10_rename_skips_verification id (fun c => c.length) [("s", [7])] "s" "d" [7]
    (by decide) (by decide)).1

/-! ## The bin packer (`split_dir.py`, lines 146-170) -/

/-- One bin: the parallel entries `batches[i]` (files in insertion order) and
`batch_sizes[i]` (tracked total). -/
abbrev Bin := List (String × Nat) × Nat

/-- Scan the existing bins in creation order and put `f` into the first one
whose tracked size still has room (lines 160-166); `none` when no bin fits. -/
def placeFirstFit (maxSize : Nat) (f : String × Nat) : List Bin → Option (List Bin)
  | [] => none
  | b :: rest =>
    if b.2 + f.2 ≤ maxSize then some ((b.1 ++ [f], b.2 + f.2) :: rest)
    else (placeFirstFit maxSize f rest).map (fun r => b :: r)

/-- Process one already-sorted file (lines 151-170): an oversized file opens
its own (overflow) bin, otherwise first-fit, opening a new bin when nothing
fits. -/
def packStep (maxSize : Nat) (bins : List Bin) (f : String × Nat) : List Bin :=
  if f.2 > maxSize then bins ++ [([f], f.2)]
  else
    match placeFirstFit maxSize f bins with
    | some bins' => bins'
    | none => bins ++ [([f], f.2)]

/-- The whole packing pass: stable sort by size descending
(`files.sort(key=lambda x: x[1], reverse=True)`, line 146), then first-fit
over the sorted list. -/
def packBins (files : List (String × Nat)) (maxSize : Nat) : List Bin :=
  (files.mergeSort (fun a b => decide (b.2 ≤ a.2))).foldl (packStep maxSize) []

/-- All files of all bins, in bin order. -/
def joinBins (bins : List Bin) : List (String × Nat) :=
  (bins.map (fun b => b.1)).flatten

/-- The bin invariant: the tracked size is the sum of the member sizes; the
bin is within capacity unless it is a single-file overflow bin; and any
oversized member is alone in its bin. -/
def BinInv (cap : Nat) (b : Bin) : Prop :=
  (b.1.map (fun f => f.2)).sum = b.2 ∧
  (b.2 ≤ cap ∨ ∃ f, b.1 = [f] ∧ cap < f.2) ∧
  (∀ f ∈ b.1, cap < f.2 → b.1 = [f])

theorem joinBins_append (bs cs : List Bin) :
    joinBins (bs ++ cs) = joinBins bs ++ joinBins cs := by
  simp [joinBins]

theorem placeFirstFit_join {cap : Nat} {f : String × Nat} :
    ∀ {bins bins' : List Bin}, placeFirstFit cap f bins = some bins' →
      List.Perm (joinBins bins') (f :: joinBins bins) := by
  intro bins
  induction bins with
  | nil => intro bins' h; simp [placeFirstFit] at h
  | cons b rest ih =>
    intro bins' h
    rw [placeFirstFit] at h
    split_ifs at h with hfit
    · obtain rfl := Option.some.inj h
      simp only [joinBins, List.map_cons, List.flatten_cons]
      rw [List.append_assoc]
      exact (List.perm_middle :
        List.Perm (b.1 ++ f :: (rest.map (fun b => b.1)).flatten)
          (f :: (b.1 ++ (rest.map (fun b => b.1)).flatten)))
    · cases hrec : placeFirstFit cap f rest with
      | none => rw [hrec] at h; simp at h
      | some rest' =>
        rw [hrec] at h
        simp only [Option.map_some', Option.some.injEq] at h
        subst h
        have hperm := ih hrec
        simp only [joinBins, List.map_cons, List.flatten_cons] at hperm ⊢
        exact (List.Perm.append_left b.1 hperm).trans List.perm_middle

theorem packStep_join (cap : Nat) (bins : List Bin) (f : String × Nat) :
    List.Perm (joinBins (packStep cap bins f)) (f :: joinBins bins) := by
  rw [packStep]
  split_ifs with hbig
  · rw [joinBins_append]
    simp only [joinBins, List.map_cons, List.map_nil, List.flatten_cons,
      List.flatten_nil, List.append_nil]
    exact List.perm_append_singleton f ((bins.map (fun b => b.1)).flatten)
  · cases hp : placeFirstFit cap f bins with
    | some bins' => exact placeFirstFit_join hp
    | none =>
      rw [joinBins_append]
      simp only [joinBins, List.map_cons, List.map_nil, List.flatten_cons,
        List.flatten_nil, List.append_nil]
      exact List.perm_append_singleton f ((bins.map (fun b => b.1)).flatten)

theorem foldl_packStep_join (cap : Nat) :
    ∀ (l : List (String × Nat)) (bins : List Bin),
      List.Perm (joinBins (l.foldl (packStep cap) bins)) (l ++ joinBins bins) := by
  intro l
  induction l with
  | nil => intro bins; simp
  | cons f rest ih =>
    intro bins
    have h1 := ih (packStep cap bins f)
    have h2 := List.Perm.append_left rest (packStep_join cap bins f)
    exact (h1.trans h2).trans List.perm_middle

theorem packBins_perm (files : List (String × Nat)) (cap : Nat) :
    List.Perm (joinBins (packBins files cap)) files := by
  have h1 := foldl_packStep_join cap
    (files.mergeSort (fun a b => decide (b.2 ≤ a.2))) []
  rw [show joinBins ([] : List Bin) = [] from rfl, List.append_nil] at h1
  exact h1.trans (List.mergeSort_perm files _)

theorem placeFirstFit_inv {cap : Nat} {f : String × Nat} (hf : f.2 ≤ cap) :
    ∀ {bins bins' : List Bin}, placeFirstFit cap f bins = some bins' →
      (∀ b ∈ bins, BinInv cap b) → ∀ b ∈ bins', BinInv cap b := by
  intro bins
  induction bins with
  | nil => intro bins' h; simp [placeFirstFit] at h
  | cons b rest ih =>
    intro bins' h hinv
    rw [placeFirstFit] at h
    split_ifs at h with hfit
    · obtain rfl := Option.some.inj h
      intro b' hb'
      rcases List.mem_cons.mp hb' with hb' | hb'
      · subst hb'
        obtain ⟨hsum, _, _⟩ := hinv b (List.mem_cons_self b rest)
        refine ⟨by simp [hsum], Or.inl hfit, ?_⟩
        intro g hg hgbig
        exfalso
        rcases List.mem_append.mp hg with hg | hg
        · have : g.2 ≤ (b.1.map (fun f => f.2)).sum :=
            List.single_le_sum (fun _ _ => Nat.zero_le _) _
              (List.mem_map_of_mem (fun f => f.2) hg)
          omega
        · simp only [List.mem_singleton] at hg
          subst hg
          omega
      · exact hinv b' (List.mem_cons_of_mem b hb')
    · cases hrec : placeFirstFit cap f rest with
      | none => rw [hrec] at h; simp at h
      | some rest' =>
        rw [hrec] at h
        simp only [Option.map_some', Option.some.injEq] at h
        subst h
        intro b' hb'
        rcases List.mem_cons.mp hb' with hb' | hb'
        · subst hb'; exact hinv b' (List.mem_cons_self _ _)
        · exact ih hrec (fun c hc => hinv c (List.mem_cons_of_mem b hc)) b' hb'

theorem packStep_inv (cap : Nat) (bins : List Bin) (f : String × Nat)
    (hinv : ∀ b ∈ bins, BinInv cap b) :
    ∀ b ∈ packStep cap bins f, BinInv cap b := by
  rw [packStep]
  split_ifs with hbig
  · intro b hb
    rcases List.mem_append.mp hb with hb | hb
    · exact hinv b hb
    · simp only [List.mem_singleton] at hb
      subst hb
      exact ⟨by simp, Or.inr ⟨f, rfl, hbig⟩, by intro g hg _; simp_all⟩
  · push_neg at hbig
    cases hp : placeFirstFit cap f bins with
    | some bins' => exact placeFirstFit_inv hbig hp hinv
    | none =>
      intro b hb
      rcases List.mem_append.mp hb with hb | hb
      · exact hinv b hb
      · simp only [List.mem_singleton] at hb
        subst hb
        refine ⟨by simp, Or.inl hbig, ?_⟩
        intro g hg hgbig
        simp only [List.mem_singleton] at hg
        subst hg
        omega

theorem foldl_packStep_inv (cap : Nat) :
    ∀ (l : List (String × Nat)) (bins : List Bin),
      (∀ b ∈ bins, BinInv cap b) →
      ∀ b ∈ l.foldl (packStep cap) bins, BinInv cap b := by
  intro l
  induction l with
  | nil => intro bins h; exact h
  | cons f rest ih =>
    intro bins h
    exact ih (packStep cap bins f) (packStep_inv cap bins f h)

/-- C4: for every entries list and capacity, the packer's bins partition the
input (their concatenation is a permutation of the entries), every bin's
tracked size is the sum of its members' sizes and is within capacity unless
the bin is a single-file overflow bin, and every oversized entry sits alone in
its bin. -/
theorem claim_c4_binpacker_invariants (files : List (String × Nat)) (cap : Nat)
    (_hcap : 0 < cap) :
    List.Perm (joinBins (packBins files cap)) files ∧
    ∀ b ∈ packBins files cap, BinInv cap b :=
  ⟨packBins_perm files cap,
   foldl_packStep_inv cap _ [] (by intro b hb; simp at hb)⟩

/-- Witness for C4 at a concrete input with an oversized file. -/
theorem claim_c4_witness :
    List.Perm (joinBins (packBins [("a", 6), ("x", 15), ("b", 5)] 10))
      [("a", 6), ("x", 15), ("b", 5)] :=
  (claim_c4_binpacker_invariants [("a", 6), ("x", 15), ("b", 5)] 10 (by decide)).1

/-! ## First-fit-decreasing as the spec words it (claim C6) -/

/-- A bin as the spec's data model words it: ordered members and a running
total size. -/
structure SpecBin where
  members : List (String × Nat)
  totalSize : Nat
deriving DecidableEq, Repr

/-- Written from the spec's words (§4.3), for comparison with the code's
`packStep`: an entry with `size > capacity` becomes its own new (overflow)
bin; otherwise scan existing bins in creation order and place the entry in the
first bin whose `totalSize + size <= capacity`; if none fits, open a new
bin. -/
def ffdSpecStep (capacity : Nat) (bins : List SpecBin) (e : String × Nat) :
    List SpecBin :=
  if e.2 > capacity then bins ++ [⟨[e], e.2⟩]
  else
    match bins.findIdx? (fun b => decide (b.totalSize + e.2 ≤ capacity)) with
    | some i =>
      List.modify (fun b => ⟨b.members ++ [e], b.totalSize + e.2⟩) i bins
    | none => bins ++ [⟨[e], e.2⟩]

/-- Written from the spec's words: sort entries by size descending (stable,
ties keep scan order) and fold the placement rule over them. -/
def ffdSpec (entries : List (String × Nat)) (capacity : Nat) : List SpecBin :=
  (entries.mergeSort (fun a b => decide (b.2 ≤ a.2))).foldl (ffdSpecStep capacity) []

/-- View of a code-side bin as a spec-side bin. -/
def binToSpec (b : Bin) : SpecBin := ⟨b.1, b.2⟩

theorem placeFirstFit_toSpec (cap : Nat) (f : String × Nat) :
    ∀ bins : List Bin,
      (placeFirstFit cap f bins).map (List.map binToSpec) =
        ((bins.map binToSpec).findIdx?
            (fun b => decide (b.totalSize + f.2 ≤ cap))).map
          (fun i => List.modify
            (fun b => ⟨b.members ++ [f], b.totalSize + f.2⟩) i
            (bins.map binToSpec)) := by
  intro bins
  induction bins with
  | nil => rfl
  | cons b rest ih =>
    rw [placeFirstFit]
    simp only [List.map_cons, List.findIdx?_cons]
    by_cases hfit : b.2 + f.2 ≤ cap
    · have hb : (decide ((binToSpec b).totalSize + f.2 ≤ cap)) = true := by
        simpa using hfit
      rw [if_pos hfit, hb, if_pos rfl]
      rfl
    · have hb : (decide ((binToSpec b).totalSize + f.2 ≤ cap)) = false := by
        simpa using hfit
      rw [if_neg hfit, hb]
      simp only [Bool.false_eq_true, if_false]
      rw [List.findIdx?_succ]
      cases hq : (rest.map binToSpec).findIdx?
          (fun b => decide (b.totalSize + f.2 ≤ cap)) with
      | none =>
        rw [hq] at ih
        simp only [Option.map_none'] at ih
        have hp : placeFirstFit cap f rest = none := by
          cases hpp : placeFirstFit cap f rest with
          | none => rfl
          | some r => rw [hpp] at ih; simp at ih
        simp [hp]
      | some i =>
        rw [hq] at ih
        simp only [Option.map_some'] at ih
        cases hpp : placeFirstFit cap f rest with
        | none => rw [hpp] at ih; simp at ih
        | some rest' =>
          rw [hpp] at ih
          simp only [Option.map_some', Option.some.injEq] at ih
          simp only [Option.map_some', Option.some.injEq]
          have hmod : List.modify
              (fun b => SpecBin.mk (b.members ++ [f]) (b.totalSize + f.2)) (i + 1)
              (binToSpec b :: rest.map binToSpec) =
              binToSpec b :: List.modify
                (fun b => SpecBin.mk (b.members ++ [f]) (b.totalSize + f.2)) i
                (rest.map binToSpec) := rfl
          rw [hmod, ← ih]
          rfl

theorem packStep_toSpec (cap : Nat) (bins : List Bin) (f : String × Nat) :
    (packStep cap bins f).map binToSpec = ffdSpecStep cap (bins.map binToSpec) f := by
  rw [packStep, ffdSpecStep]
  by_cases hbig : f.2 > cap
  · simp [hbig, binToSpec]
  · simp only [hbig, if_neg, Bool.false_eq_true]
    have := placeFirstFit_toSpec cap f bins
    cases hp : placeFirstFit cap f bins with
    | none =>
      rw [hp] at this
      simp only [Option.map_none'] at this
      cases hq : (bins.map binToSpec).findIdx?
          (fun b => decide (b.totalSize + f.2 ≤ cap)) with
      | none => simp [binToSpec]
      | some i => rw [hq] at this; simp at this
    | some bins' =>
      rw [hp] at this
      simp only [Option.map_some'] at this
      cases hq : (bins.map binToSpec).findIdx?
          (fun b => decide (b.totalSize + f.2 ≤ cap)) with
      | none => rw [hq] at this; simp at this
      | some i =>
        rw [hq] at this
        simp only [Option.map_some', Option.some.injEq] at this
        exact this

theorem foldl_packStep_toSpec (cap : Nat) :
    ∀ (l : List (String × Nat)) (bins : List Bin),
      (l.foldl (packStep cap) bins).map binToSpec =
        l.foldl (ffdSpecStep cap) (bins.map binToSpec) := by
  intro l
  induction l with
  | nil => intro bins; rfl
  | cons f rest ih =>
    intro bins
    simp only [List.foldl_cons]
    rw [ih, packStep_toSpec]

/-- C6: the code's bin packer is exactly the first-fit-decreasing procedure
described by the spec (stable descending sort, first fitting bin in creation
order, new bin when none fits, oversized entries alone), and on the spec's
worked example `[(a,6),(b,5),(c,4),(d,3)]` with capacity 10 it produces two
bins `{a,c}` of total 10 and `{b,d}` of total 8. -/
theorem claim_c6_first_fit_decreasing :
    (∀ (entries : List (String × Nat)) (cap : Nat),
      (packBins entries cap).map binToSpec = ffdSpec entries cap) ∧
    packBins [("a", 6), ("b", 5), ("c", 4), ("d", 3)] 10 =
      [([("a", 6), ("c", 4)], 10), ([("b", 5), ("d", 3)], 8)] := by
  constructor
  · intro entries cap
    rw [packBins, ffdSpec]
    exact foldl_packStep_toSpec cap _ []
  · rw [packBins, List.mergeSort_of_sorted (by decide)]
    rfl

/-! ## The execute loop (stop on first failure) -/

/-- The execute loop of `consolidate_files.py` `main` (lines 200-218): apply
`move_file` to each planned `(src, dest)` pair in planning order, one move
finishing before the next starts; halt at the first failure.  Returns the
final filesystem, the number of completed moves, and the failing pair with
its error, if any. -/
def execute_ops (ro : RenameOutcome) (corrupt : Content → Content)
    (hash : Content → Nat) (verify : Bool) (fs : FS) :
    List (String × String) → FS × Nat × Option ((String × String) × MoveError)
  | [] => (fs, 0, none)
  | op :: rest =>
    match move_file ro corrupt hash verify fs op.1 op.2 with
    | (some e, fs', _) => (fs', 0, some (op, e))
    | (none, fs', _) =>
      let r := execute_ops ro corrupt hash verify fs' rest
      (r.1, r.2.1 + 1, r.2.2)

/-- The execute loop of `split_dir.py` `main` (lines 199-220), over its own
`move_file` variant. -/
def execute_ops_split (ro : RenameOutcome) (corrupt : Content → Content) (fs : FS) :
    List (String × String) → FS × Nat × Option ((String × String) × MoveError)
  | [] => (fs, 0, none)
  | op :: rest =>
    match move_file_split ro corrupt fs op.1 op.2 with
    | (some e, fs', _) => (fs', 0, some (op, e))
    | (none, fs', _) =>
      let r := execute_ops_split ro corrupt fs' rest
      (r.1, r.2.1 + 1, r.2.2)

theorem execute_ops_success_length (ro : RenameOutcome) (corrupt : Content → Content)
    (hash : Content → Nat) (verify : Bool) :
    ∀ (ops : List (String × String)) (fs fs' : FS) (n : Nat),
      execute_ops ro corrupt hash verify fs ops = (fs', n, none) → n = ops.length := by
  intro ops
  induction ops with
  | nil =>
    intro fs fs' n h
    rw [execute_ops] at h
    simp only [Prod.mk.injEq] at h
    exact h.2.1.symm
  | cons op rest ih =>
    intro fs fs' n h
    rw [execute_ops] at h
    rcases hmv : move_file ro corrupt hash verify fs op.1 op.2 with ⟨o, fsm, evs⟩
    rw [hmv] at h
    cases o with
    | some e => simp at h
    | none =>
      simp only [Prod.mk.injEq] at h
      obtain ⟨-, hn, hr⟩ := h
      rcases hrec : execute_ops ro corrupt hash verify fsm rest with ⟨fs2, n2, r2⟩
      rw [hrec] at hn hr
      simp only at hn hr
      subst hr
      have := ih fsm fs2 n2 hrec
      simp [← hn, this]

theorem execute_ops_halt (ro : RenameOutcome) (corrupt : Content → Content)
    (hash : Content → Nat) (verify : Bool) (op : String × String)
    (post : List (String × String)) (e : MoveError) (fs₂ : FS) (tr : List Ev) :
    ∀ (pre : List (String × String)) (fs fs₁ : FS) (n : Nat),
      execute_ops ro corrupt hash verify fs pre = (fs₁, n, none) →
      move_file ro corrupt hash verify fs₁ op.1 op.2 = (some e, fs₂, tr) →
      execute_ops ro corrupt hash verify fs (pre ++ op :: post) =
        (fs₂, n, some (op, e)) := by
  intro pre
  induction pre with
  | nil =>
    intro fs fs₁ n hpre hop
    rw [execute_ops] at hpre
    simp only [Prod.mk.injEq] at hpre
    obtain ⟨rfl, rfl, -⟩ := hpre
    rw [List.nil_append, execute_ops, hop]
  | cons p rest ih =>
    intro fs fs₁ n hpre hop
    rw [execute_ops] at hpre
    rcases hmv : move_file ro corrupt hash verify fs p.1 p.2 with ⟨o, fsm, evs⟩
    rw [hmv] at hpre
    cases o with
    | some e' => simp at hpre
    | none =>
      simp only [Prod.mk.injEq] at hpre
      rcases hrec : execute_ops ro corrupt hash verify fsm rest with ⟨fs2, n2, r2⟩
      rw [hrec] at hpre
      simp only at hpre
      obtain ⟨rfl, hn, hr⟩ := hpre
      subst hr
      have hstep := ih fsm fs2 n2 hrec hop
      rw [List.cons_append, execute_ops, hmv]
      dsimp only
      rw [hstep]
      simp [← hn]

theorem execute_ops_split_success_length (ro : RenameOutcome)
    (corrupt : Content → Content) :
    ∀ (ops : List (String × String)) (fs fs' : FS) (n : Nat),
      execute_ops_split ro corrupt fs ops = (fs', n, none) → n = ops.length := by
  intro ops
  induction ops with
  | nil =>
    intro fs fs' n h
    rw [execute_ops_split] at h
    simp only [Prod.mk.injEq] at h
    exact h.2.1.symm
  | cons op rest ih =>
    intro fs fs' n h
    rw [execute_ops_split] at h
    rcases hmv : move_file_split ro corrupt fs op.1 op.2 with ⟨o, fsm, evs⟩
    rw [hmv] at h
    cases o with
    | some e => simp at h
    | none =>
      simp only [Prod.mk.injEq] at h
      obtain ⟨-, hn, hr⟩ := h
      rcases hrec : execute_ops_split ro corrupt fsm rest with ⟨fs2, n2, r2⟩
      rw [hrec] at hn hr
      simp only at hn hr
      subst hr
      have := ih fsm fs2 n2 hrec
      simp [← hn, this]

theorem execute_ops_split_halt (ro : RenameOutcome) (corrupt : Content → Content)
    (op : String × String) (post : List (String × String)) (e : MoveError)
    (fs₂ : FS) (tr : List Ev) :
    ∀ (pre : List (String × String)) (fs fs₁ : FS) (n : Nat),
      execute_ops_split ro corrupt fs pre = (fs₁, n, none) →
      move_file_split ro corrupt fs₁ op.1 op.2 = (some e, fs₂, tr) →
      execute_ops_split ro corrupt fs (pre ++ op :: post) =
        (fs₂, n, some (op, e)) := by
  intro pre
  induction pre with
  | nil =>
    intro fs fs₁ n hpre hop
    rw [execute_ops_split] at hpre
    simp only [Prod.mk.injEq] at hpre
    obtain ⟨rfl, rfl, -⟩ := hpre
    rw [List.nil_append, execute_ops_split, hop]
  | cons p rest ih =>
    intro fs fs₁ n hpre hop
    rw [execute_ops_split] at hpre
    rcases hmv : move_file_split ro corrupt fs p.1 p.2 with ⟨o, fsm, evs⟩
    rw [hmv] at hpre
    cases o with
    | some e' => simp at hpre
    | none =>
      simp only [Prod.mk.injEq] at hpre
      rcases hrec : execute_ops_split ro corrupt fsm rest with ⟨fs2, n2, r2⟩
      rw [hrec] at hpre
      simp only at hpre
      obtain ⟨rfl, hn, hr⟩ := hpre
      subst hr
      have hstep := ih fsm fs2 n2 hrec hop
      rw [List.cons_append, execute_ops_split, hmv]
      dsimp only
      rw [hstep]
      simp [← hn]

/-! ## Decimal strings (Python `str(int)` and `int(str)`) -/

/-- Value of a decimal digit character (`ord(c) - ord('0')`). -/
def digitVal (c : Char) : Nat := c.toNat - '0'.toNat

/-- Python `int` on a string of decimal digits, as a left fold. -/
def digitsVal (cs : List Char) : Nat := cs.foldl (fun n c => n * 10 + digitVal c) 0

/-- The same fold from an arbitrary starting value. -/
def digitsValFrom (a : Nat) (cs : List Char) : Nat :=
  cs.foldl (fun n c => n * 10 + digitVal c) a

/-- Emit the decimal digits of `n` in front of `acc`; the fuel `n + 1` always
suffices since `n < 10 ^ (n + 1)`. -/
def natToDigitsAux : Nat → Nat → List Char → List Char
  | 0, _, acc => acc
  | fuel + 1, n, acc =>
    let d := Nat.digitChar (n % 10)
    if n / 10 = 0 then d :: acc else natToDigitsAux fuel (n / 10) (d :: acc)

/-- Python `str` on a natural number: decimal digits, no leading zeros. -/
def natToDigits (n : Nat) : List Char := natToDigitsAux (n + 1) n []

/-- Python `str` on a natural number, as a Lean string. -/
def natToStr (n : Nat) : String := ⟨natToDigits n⟩

theorem digitVal_digitChar {d : Nat} (h : d < 10) :
    digitVal (Nat.digitChar d) = d := by
  interval_cases d <;> decide

theorem isDigit_digitChar {d : Nat} (h : d < 10) :
    (Nat.digitChar d).isDigit = true := by
  interval_cases d <;> decide

theorem digitsValFrom_cons (a : Nat) (c : Char) (l : List Char) :
    digitsValFrom a (c :: l) = digitsValFrom (a * 10 + digitVal c) l := rfl

theorem digitsVal_natToDigitsAux :
    ∀ (fuel n : Nat) (acc : List Char), 0 < fuel → n < 10 ^ fuel →
      digitsVal (natToDigitsAux fuel n acc) = digitsValFrom n acc := by
  intro fuel
  induction fuel with
  | zero => intro n acc h; omega
  | succ f ih =>
    intro n acc _ hlt
    rw [natToDigitsAux]
    by_cases hz : n / 10 = 0
    · rw [if_pos hz]
      show digitsValFrom 0 (Nat.digitChar (n % 10) :: acc) = digitsValFrom n acc
      rw [digitsValFrom_cons, digitVal_digitChar (Nat.mod_lt n (by omega))]
      have : n % 10 = n := by omega
      rw [Nat.zero_mul, Nat.zero_add, this]
    · rw [if_neg hz]
      have hf : 0 < f := by
        by_contra hf0
        have : f = 0 := by omega
        subst this
        simp [Nat.pow_succ, Nat.pow_zero] at hlt
        omega
      have hn' : n / 10 < 10 ^ f := by
        rw [Nat.div_lt_iff_lt_mul (by omega)]
        calc n < 10 ^ (f + 1) := hlt
          _ = 10 ^ f * 10 := by rw [Nat.pow_succ]
      rw [ih (n / 10) _ hf hn', digitsValFrom_cons,
        digitVal_digitChar (Nat.mod_lt n (by omega))]
      have : n / 10 * 10 + n % 10 = n := by omega
      rw [this]

theorem digitsVal_natToDigits (n : Nat) : digitsVal (natToDigits n) = n := by
  have h1 : n < 10 ^ (n + 1) := by
    calc n < 10 ^ n := Nat.lt_pow_self (by omega) n
      _ ≤ 10 ^ (n + 1) := Nat.pow_le_pow_right (by omega) (by omega)
  rw [natToDigits, digitsVal_natToDigitsAux (n + 1) n [] (by omega) h1]
  rfl

theorem natToDigits_injective {m n : Nat} (h : natToDigits m = natToDigits n) :
    m = n := by
  have := congrArg digitsVal h
  rwa [digitsVal_natToDigits, digitsVal_natToDigits] at this

theorem natToStr_injective {m n : Nat} (h : natToStr m = natToStr n) : m = n :=
  natToDigits_injective (congrArg String.data h)

/-! ## The name resolver (`get_unique_name`, `consolidate_files.py` 75-87) -/

/-- Join a directory and an entry name (`str(dir / name)`). -/
def pathJoin (dir name : String) : String := dir ++ "/" ++ name

/-- Index of the last dot of a name (`name.rfind('.')`), if any. -/
def pyDotIdx (name : List Char) : Option Nat :=
  (name.reverse.findIdx? (fun c => c == '.')).map (fun j => name.length - 1 - j)

/-- `Path(filename).suffix`: the part from the final dot, unless the dot is
the leading or trailing character. -/
def pySuffix (name : String) : String :=
  match pyDotIdx name.data with
  | some i => if 0 < i ∧ i < name.data.length - 1 then ⟨name.data.drop i⟩ else ""
  | none => ""

/-- `Path(filename).stem`: the name with its suffix removed. -/
def pyStem (name : String) : String :=
  ⟨name.data.take (name.data.length - (pySuffix name).data.length)⟩

/-- A candidate of the collision loop: `targetDir / f"{stem}_{counter}{suffix}"`. -/
def mkCandidate (targetDir stem suffix : String) (counter : Nat) : String :=
  pathJoin targetDir (stem ++ "_" ++ natToStr counter ++ suffix)

/-- The `while` loop of `get_unique_name` (lines 82-84) with explicit fuel;
`gunFuel` below always suffices (see `gunLoop_isSome`). -/
def gunLoop (disk claimed : List String) (targetDir stem suffix : String) :
    Nat → Nat → Option String
  | 0, _ => none
  | fuel + 1, counter =>
    let candidate := mkCandidate targetDir stem suffix counter
    if candidate ∈ disk ∨ candidate ∈ claimed then
      gunLoop disk claimed targetDir stem suffix fuel (counter + 1)
    else some candidate

/-- One more iteration than there are names that could possibly be busy. -/
def gunFuel (disk claimed : List String) : Nat := disk.length + claimed.length + 1

/-- `get_unique_name` (lines 75-87): return the first candidate that exists
neither on disk nor in the claim set, registering the winner in the claim set
before returning it.  (The fallback arm is dead code: `gunLoop_isSome` shows
the loop always finds a free name within `gunFuel`.) -/
def get_unique_name (disk claimed : List String) (targetDir filename : String) :
    String × List String :=
  let stem := pyStem filename
  let suffix := pySuffix filename
  let first := pathJoin targetDir filename
  if first ∈ disk ∨ first ∈ claimed then
    match gunLoop disk claimed targetDir stem suffix (gunFuel disk claimed) 1 with
    | some c => (c, c :: claimed)
    | none => (first, first :: claimed)
  else (first, first :: claimed)

/-- The planning loop of `consolidate_files.py` `main` (lines 169-179):
resolve a destination for each scanned filename in discovery order, threading
the claim set. -/
def plan_dests (disk : List String) (targetDir : String) :
    List String → List String → List String × List String
  | claimed, [] => ([], claimed)
  | claimed, f :: rest =>
    let r := get_unique_name disk claimed targetDir f
    let q := plan_dests disk targetDir r.2 rest
    (r.1 :: q.1, q.2)

theorem append_middle_cancel {α : Type} {A B C D : List α}
    (h : A ++ B ++ D = A ++ C ++ D) : B = C := by
  rw [List.append_assoc, List.append_assoc] at h
  exact List.append_cancel_right (List.append_cancel_left h)

theorem mkCandidate_data (t s suf : String) (k : Nat) :
    (mkCandidate t s suf k).data =
      (t.data ++ '/' :: (s.data ++ ['_'])) ++ natToDigits k ++ suf.data := by
  simp [mkCandidate, pathJoin, natToStr, natToDigits, String.data_append,
    List.append_assoc]

theorem mkCandidate_inj (t s suf : String) {i j : Nat}
    (h : mkCandidate t s suf i = mkCandidate t s suf j) : i = j := by
  have hd := congrArg String.data h
  rw [mkCandidate_data, mkCandidate_data] at hd
  exact natToDigits_injective (append_middle_cancel hd)

/-- Pigeonhole: within any window of `gunFuel` consecutive counters there is a
candidate that is neither on disk nor claimed. -/
theorem exists_free_candidate (disk claimed : List String) (t s suf : String)
    (start : Nat) :
    ∃ i < gunFuel disk claimed,
      mkCandidate t s suf (start + i) ∉ disk ∧
      mkCandidate t s suf (start + i) ∉ claimed := by
  by_contra hcon
  push_neg at hcon
  have hsub : (List.range (gunFuel disk claimed)).map
      (fun i => mkCandidate t s suf (start + i)) ⊆ disk ++ claimed := by
    intro x hx
    rw [List.mem_map] at hx
    obtain ⟨i, hi, rfl⟩ := hx
    rw [List.mem_range] at hi
    by_cases hdx : mkCandidate t s suf (start + i) ∈ disk
    · exact List.mem_append.mpr (Or.inl hdx)
    · exact List.mem_append.mpr (Or.inr (hcon i hi hdx))
  have hnodup : ((List.range (gunFuel disk claimed)).map
      (fun i => mkCandidate t s suf (start + i))).Nodup := by
    refine List.Nodup.map ?_ (List.nodup_range _)
    intro i j hij
    have := mkCandidate_inj t s suf hij
    omega
  have hlen := (List.subperm_of_subset hnodup hsub).length_le
  simp only [List.length_map, List.length_range, List.length_append] at hlen
  rw [gunFuel] at hlen
  omega

/-- With a free candidate in range, the collision loop returns one, and the
returned candidate is free. -/
theorem gunLoop_isSome (disk claimed : List String) (t s suf : String) :
    ∀ (fuel start : Nat),
      (∃ i < fuel, mkCandidate t s suf (start + i) ∉ disk ∧
        mkCandidate t s suf (start + i) ∉ claimed) →
      ∃ c, gunLoop disk claimed t s suf fuel start = some c ∧
        c ∉ disk ∧ c ∉ claimed := by
  intro fuel
  induction fuel with
  | zero =>
    intro start h
    obtain ⟨i, hi, -⟩ := h
    omega
  | succ f ih =>
    intro start h
    rw [gunLoop]
    by_cases hbusy : mkCandidate t s suf start ∈ disk ∨
        mkCandidate t s suf start ∈ claimed
    · rw [if_pos hbusy]
      apply ih
      obtain ⟨i, hi, hfree⟩ := h
      cases i with
      | zero =>
        rw [Nat.add_zero] at hfree
        rcases hbusy with hb | hb
        · exact absurd hb hfree.1
        · exact absurd hb hfree.2
      | succ i' =>
        refine ⟨i', by omega, ?_⟩
        have harith : start + (i' + 1) = start + 1 + i' := by omega
        rwa [harith] at hfree
    · rw [if_neg hbusy]
      push_neg at hbusy
      exact ⟨_, rfl, hbusy.1, hbusy.2⟩

/-- Specification of `get_unique_name`: the returned path exists neither on
disk nor in the incoming claim set, and the returned claim set is exactly the
incoming one with the winner registered. -/
theorem get_unique_name_spec (disk claimed : List String) (t filename : String) :
    (get_unique_name disk claimed t filename).1 ∉ disk ∧
    (get_unique_name disk claimed t filename).1 ∉ claimed ∧
    (get_unique_name disk claimed t filename).2 =
      (get_unique_name disk claimed t filename).1 :: claimed := by
  rw [get_unique_name]
  by_cases hbusy : pathJoin t filename ∈ disk ∨ pathJoin t filename ∈ claimed
  · rw [if_pos hbusy]
    obtain ⟨c, hc, hcd, hcc⟩ := gunLoop_isSome disk claimed t
      (pyStem filename) (pySuffix filename) (gunFuel disk claimed) 1
      (by
        obtain ⟨i, hi, hfree⟩ := exists_free_candidate disk claimed t
          (pyStem filename) (pySuffix filename) 1
        exact ⟨i, hi, hfree⟩)
    rw [hc]
    exact ⟨hcd, hcc, rfl⟩
  · rw [if_neg hbusy]
    push_neg at hbusy
    exact ⟨hbusy.1, hbusy.2, rfl⟩

/-- Specification of the planning loop: the planned destinations are pairwise
distinct, and none of them is on disk or in the seed claim set. -/
theorem plan_dests_spec (disk : List String) (t : String) :
    ∀ (files claimed : List String),
      (plan_dests disk t claimed files).1.Nodup ∧
      (∀ p ∈ (plan_dests disk t claimed files).1, p ∉ claimed ∧ p ∉ disk) := by
  intro files
  induction files with
  | nil => intro claimed; simp [plan_dests]
  | cons f rest ih =>
    intro claimed
    obtain ⟨hd, hc, hreg⟩ := get_unique_name_spec disk claimed t f
    obtain ⟨ihnodup, ihmem⟩ := ih (get_unique_name disk claimed t f).2
    rw [plan_dests]
    constructor
    · refine List.Nodup.cons ?_ ihnodup
      intro hmem
      have := (ihmem _ hmem).1
      rw [hreg] at this
      exact this (List.mem_cons_self _ _)
    · intro p hp
      rcases List.mem_cons.mp hp with hp | hp
      · subst hp; exact ⟨hc, hd⟩
      · have := ihmem p hp
        rw [hreg] at this
        exact ⟨fun hmem => this.1 (List.mem_cons_of_mem _ hmem), this.2⟩

/-- C3: within one consolidation run the destinations assigned by
`get_unique_name` are pairwise distinct and distinct from every path in the
seed claim set (which `main` fills with the target directory's pre-existing
entries) and from everything on disk; each winner is registered in the claim
set before being returned, so a second call with the same target directory and
filename necessarily returns a different path. -/
theorem claim_c3_unique_destinations (disk : List String) (t : String) :
    (∀ (files claimed : List String),
      (plan_dests disk t claimed files).1.Nodup ∧
      (∀ p ∈ (plan_dests disk t claimed files).1, p ∉ claimed ∧ p ∉ disk)) ∧
    (∀ (claimed : List String) (f : String),
      (get_unique_name disk claimed t f).2 =
        (get_unique_name disk claimed t f).1 :: claimed ∧
      (get_unique_name disk claimed t f).1 ∉ claimed ∧
      (get_unique_name disk claimed t f).1 ∉ disk) ∧
    (∀ (claimed : List String) (f : String),
      (get_unique_name disk
        (get_unique_name disk claimed t f).2 t f).1 ≠
      (get_unique_name disk claimed t f).1) := by
  refine ⟨plan_dests_spec disk t, ?_, ?_⟩
  · intro claimed f
    obtain ⟨hd, hc, hreg⟩ := get_unique_name_spec disk claimed t f
    exact ⟨hreg, hc, hd⟩
  · intro claimed f
    obtain ⟨-, -, hreg₁⟩ := get_unique_name_spec disk claimed t f
    obtain ⟨-, hc₂, -⟩ := get_unique_name_spec disk
      (get_unique_name disk claimed t f).2 t f
    intro heq
    rw [heq] at hc₂
    apply hc₂
    rw [hreg₁]
    exact List.mem_cons_self _ _

/-- Witness for C3: two files both named `x.txt` from different source trees,
with `d/x.txt` already present in the target, are planned onto pairwise
distinct fresh destinations. -/
theorem claim_c3_witness :
    (plan_dests ["d/x.txt"] "d" ["d/x.txt"] ["x.txt", "x.txt"]).1.Nodup :=
  ((claim_c3_unique_destinations ["d/x.txt"] "d").1 ["x.txt", "x.txt"] ["d/x.txt"]).1

/-! ## Numbered split directories (`split_dir.py` 59-72, 176-190) -/

/-- How the predicates `entry.is_dir()` / `entry.is_file()` classify a
directory entry. -/
inductive EntryKind where
  | dirE
  | fileE
  | otherE
deriving DecidableEq, Repr

/-- The regex `^\d+$`: nonempty and all decimal digits. -/
def isNumericName (s : String) : Bool := !s.data.isEmpty && s.data.all Char.isDigit

/-- One step of the `find_max_numbered_dir` loop (lines 64-70): numeric-named
subdirectories raise the running maximum, everything else is ignored. -/
def fmndStep (m : Nat) (e : String × EntryKind) : Nat :=
  if e.2 = EntryKind.dirE ∧ isNumericName e.1 then max m (digitsVal e.1.data) else m

/-- `find_max_numbered_dir` (lines 59-72) over the entry listing. -/
def find_max_numbered_dir (entries : List (String × EntryKind)) : Nat :=
  entries.foldl fmndStep 0

/-- The names of the new bin directories (line 179): `str(start_num + i + 1)`
for bin index `i`. -/
def bin_dir_names (startNum nBatches : Nat) : List String :=
  (List.range nBatches).map (fun i => natToStr (startNum + i + 1))

theorem le_fmndStep (m : Nat) (e : String × EntryKind) : m ≤ fmndStep m e := by
  rw [fmndStep]
  split_ifs
  · exact Nat.le_max_left _ _
  · exact Nat.le_refl _

theorem le_foldl_fmndStep : ∀ (l : List (String × EntryKind)) (a : Nat),
    a ≤ l.foldl fmndStep a := by
  intro l
  induction l with
  | nil => intro a; exact Nat.le_refl _
  | cons e rest ih =>
    intro a
    exact Nat.le_trans (le_fmndStep a e) (ih (fmndStep a e))

theorem mem_le_foldl_fmndStep :
    ∀ (l : List (String × EntryKind)) (a : Nat) (e : String × EntryKind),
      e ∈ l → e.2 = EntryKind.dirE → isNumericName e.1 = true →
      digitsVal e.1.data ≤ l.foldl fmndStep a := by
  intro l
  induction l with
  | nil => intro a e h; simp at h
  | cons e' rest ih =>
    intro a e hmem hdir hnum
    rcases List.mem_cons.mp hmem with heq | hmem'
    · subst heq
      refine Nat.le_trans ?_ (le_foldl_fmndStep rest (fmndStep a e))
      rw [fmndStep, if_pos ⟨hdir, hnum⟩]
      exact Nat.le_max_right _ _
    · exact ih (fmndStep a e') e hmem' hdir hnum

theorem isDigit_natToDigitsAux :
    ∀ (fuel n : Nat) (acc : List Char), (∀ c ∈ acc, c.isDigit = true) →
      ∀ c ∈ natToDigitsAux fuel n acc, c.isDigit = true := by
  intro fuel
  induction fuel with
  | zero => intro n acc hacc; exact hacc
  | succ f ih =>
    intro n acc hacc c hc
    rw [natToDigitsAux] at hc
    split_ifs at hc
    · rcases List.mem_cons.mp hc with rfl | hc
      · exact isDigit_digitChar (Nat.mod_lt n (by omega))
      · exact hacc c hc
    · refine ih (n / 10) _ ?_ c hc
      intro c' hc'
      rcases List.mem_cons.mp hc' with rfl | hc'
      · exact isDigit_digitChar (Nat.mod_lt n (by omega))
      · exact hacc c' hc'

theorem natToDigitsAux_ne_nil :
    ∀ (fuel n : Nat) (acc : List Char), 0 < fuel →
      natToDigitsAux fuel n acc ≠ [] := by
  intro fuel
  induction fuel with
  | zero => intro n acc h; omega
  | succ f ih =>
    intro n acc _
    rw [natToDigitsAux]
    split_ifs
    · simp
    · cases f with
      | zero => rw [natToDigitsAux]; simp
      | succ f' => exact ih (n / 10) _ (by omega)

theorem isNumericName_natToStr (n : Nat) : isNumericName (natToStr n) = true := by
  rw [isNumericName, natToStr]
  have h1 := natToDigitsAux_ne_nil (n + 1) n [] (by omega)
  have h2 := isDigit_natToDigitsAux (n + 1) n [] (by intro c hc; simp at hc)
  rw [Bool.and_eq_true, Bool.not_eq_true']
  constructor
  · rw [List.isEmpty_eq_false]
    exact h1
  · rw [List.all_eq_true]
    intro c hc
    exact h2 c hc

/-- C7: bin numbering.  The first new directory is named one past the highest
pre-existing numeric-named subdirectory (so `"1"` when there is none), the
`i`-th new directory is `str(start + i + 1)` (consecutive integers), a
non-numeric or non-directory entry never affects the numbering (and is not an
error), the new names are themselves numeric, and no new name collides with
any pre-existing numeric subdirectory. -/
theorem claim_c7_dir_numbering (entries : List (String × EntryKind)) (n : Nat) :
    (0 < n → (bin_dir_names (find_max_numbered_dir entries) n).head? =
      some (natToStr (find_max_numbered_dir entries + 1))) ∧
    ((∀ e ∈ entries, ¬(e.2 = EntryKind.dirE ∧ isNumericName e.1 = true)) →
      find_max_numbered_dir entries = 0 ∧
      (0 < n → (bin_dir_names (find_max_numbered_dir entries) n).head? =
        some (natToStr 1))) ∧
    (∀ i, i < n → (bin_dir_names (find_max_numbered_dir entries) n)[i]? =
      some (natToStr (find_max_numbered_dir entries + i + 1))) ∧
    (∀ name kind, ¬(kind = EntryKind.dirE ∧ isNumericName name = true) →
      find_max_numbered_dir ((name, kind) :: entries) =
        find_max_numbered_dir entries) ∧
    (∀ nm ∈ bin_dir_names (find_max_numbered_dir entries) n,
      isNumericName nm = true) ∧
    (∀ e ∈ entries, e.2 = EntryKind.dirE → isNumericName e.1 = true →
      ∀ nm ∈ bin_dir_names (find_max_numbered_dir entries) n, nm ≠ e.1) := by
  refine ⟨?_, ?_, ?_, ?_, ?_, ?_⟩
  · intro hn
    cases n with
    | zero => omega
    | succ n' =>
      rw [bin_dir_names, List.range_succ_eq_map]
      simp
  · intro hnone
    have hz : find_max_numbered_dir entries = 0 := by
      rw [find_max_numbered_dir]
      have : ∀ (l : List (String × EntryKind)),
          (∀ e ∈ l, ¬(e.2 = EntryKind.dirE ∧ isNumericName e.1 = true)) →
          l.foldl fmndStep 0 = 0 := by
        intro l
        induction l with
        | nil => intro h; rfl
        | cons e rest ih =>
          intro h
          rw [List.foldl_cons, fmndStep,
            if_neg (h e (List.mem_cons_self _ _))]
          exact ih (fun e' he' => h e' (List.mem_cons_of_mem _ he'))
      exact this entries hnone
    refine ⟨hz, ?_⟩
    intro hn
    rw [hz]
    cases n with
    | zero => omega
    | succ n' =>
      rw [bin_dir_names, List.range_succ_eq_map]
      simp
  · intro i hi
    rw [bin_dir_names, List.getElem?_map, List.getElem?_range hi]
    rfl
  · intro name kind hne
    rw [find_max_numbered_dir, find_max_numbered_dir, List.foldl_cons,
      fmndStep, if_neg hne]
  · intro nm hnm
    rw [bin_dir_names, List.mem_map] at hnm
    obtain ⟨i, -, rfl⟩ := hnm
    exact isNumericName_natToStr _
  · intro e hmem hdir hnum nm hnm heq
    rw [bin_dir_names, List.mem_map] at hnm
    obtain ⟨i, -, rfl⟩ := hnm
    have hle : digitsVal e.1.data ≤ find_max_numbered_dir entries :=
      mem_le_foldl_fmndStep entries 0 e hmem hdir hnum
    have hval : digitsVal e.1.data = find_max_numbered_dir entries + i + 1 := by
      rw [← heq]
      show digitsVal (natToStr (find_max_numbered_dir entries + i + 1)).data =
        find_max_numbered_dir entries + i + 1
      exact digitsVal_natToDigits _
    omega

/-- Witness for C7: with existing entries `2/` (numeric dir), `junk/`
(non-numeric dir) and a file named `7`, two new bins are named `3` and `4`. -/
theorem claim_c7_witness :
    (bin_dir_names (find_max_numbered_dir
      [("2", EntryKind.dirE), ("junk", EntryKind.dirE), ("7", EntryKind.fileE)]) 2).head? =
      some (natToStr (find_max_numbered_dir
        [("2", EntryKind.dirE), ("junk", EntryKind.dirE), ("7", EntryKind.fileE)] + 1)) ∧
    (bin_dir_names (find_max_numbered_dir
      [("2", EntryKind.dirE), ("junk", EntryKind.dirE), ("7", EntryKind.fileE)]) 2)[1]? =
      some (natToStr (find_max_numbered_dir
        [("2", EntryKind.dirE), ("junk", EntryKind.dirE), ("7", EntryKind.fileE)] + 1 + 1)) :=
  ⟨(claim_c7_dir_numbering
      [("2", EntryKind.dirE), ("junk", EntryKind.dirE), ("7", EntryKind.fileE)] 2).1
      (by omega),
   (claim_c7_dir_numbering
      [("2", EntryKind.dirE), ("junk", EntryKind.dirE), ("7", EntryKind.fileE)] 2).2.2.1
      1 (by omega)⟩

/-! ## The directory scanner (`get_all_files`, shallow scan) -/

/-- A filesystem node for scanning: a regular file, a directory with named
children, a symbolic link (`none` target = broken link), or a special file
(fifo, device, socket). -/
inductive Node where
  | file (content : Content)
  | dir (children : List (String × Node))
  | symlink (target : Option Node)
  | special

/-- `Path.is_file()` of the platform: true iff the path resolves to a regular
file, following symbolic links. -/
def isFileNode : Node → Bool
  | .file _ => true
  | .symlink (some t) => isFileNode t
  | _ => false

/-- `Path.is_dir()` of the platform: true iff the path resolves to a
directory, following symbolic links. -/
def isDirNode : Node → Bool
  | .dir _ => true
  | .symlink (some t) => isDirNode t
  | _ => false

/-- `entry.stat().st_size` (symlinks followed). -/
def nodeSize : Node → Nat
  | .file c => c.length
  | .symlink (some t) => nodeSize t
  | _ => 0

mutual
/-- `get_all_files` of `consolidate_files.py` (lines 61-72) applied to the
node at path `p`: iterate over the children the platform lists for it. -/
def gafNode (p : String) : Node → List String
  | .dir cs => gafList p cs
  | .symlink (some t) => gafNode p t
  | _ => []

/-- The `iterdir` loop of `get_all_files`: an entry satisfying `is_dir()` is
recursed into, otherwise one satisfying `is_file()` is collected. -/
def gafList (p : String) : List (String × Node) → List String
  | [] => []
  | (nm, nd) :: rest =>
    (if isDirNode nd then gafNode (pathJoin p nm) nd
     else if isFileNode nd then [pathJoin p nm]
     else []) ++ gafList p rest
end

/-- The shallow scan of `split_dir.py` `main` (lines 137-140): direct children
satisfying `is_file()`, with their sizes. -/
def shallow_files (children : List (String × Node)) : List (String × Nat) :=
  (children.filter (fun c => isFileNode c.2)).map (fun c => (c.1, nodeSize c.2))

/-- C8 as stated is false: a symbolic link to a regular file is collected by
the recursive scan (and by the shallow scan), because `is_file()` follows
symlinks.  At the concrete directory `d` containing only the entry `link`, a
symlink to a one-byte regular file, the scan returns `["d/link"]`. -/
theorem claim_c8_counterexample :
    gafList "d" [("link", Node.symlink (some (Node.file [1])))] = ["d/link"] ∧
    shallow_files [("link", Node.symlink (some (Node.file [1])))] = [("link", 1)] := by
  constructor
  · rw [gafList]
    simp [isDirNode, isFileNode, gafList, pathJoin]
  · simp [shallow_files, isFileNode, nodeSize]

/-- C8 amended: the scanners classify an entry by what it resolves to.  A
symlink behaves exactly like its target (so a symlink to a regular file is
collected and a symlink to a directory is traversed), while special files and
broken symlinks are excluded; a plain regular file is collected. -/
theorem claim_c8_symlink_resolution (p nm : String) (rest : List (String × Node)) :
    (∀ t, gafList p ((nm, Node.symlink (some t)) :: rest) =
      gafList p ((nm, t) :: rest)) ∧
    gafList p ((nm, Node.special) :: rest) = gafList p rest ∧
    gafList p ((nm, Node.symlink none) :: rest) = gafList p rest ∧
    (∀ c, gafList p ((nm, Node.file c) :: rest) = pathJoin p nm :: gafList p rest) ∧
    (∀ t, shallow_files ((nm, Node.symlink (some t)) :: rest) =
      shallow_files ((nm, t) :: rest)) ∧
    shallow_files ((nm, Node.special) :: rest) = shallow_files rest ∧
    shallow_files ((nm, Node.symlink none) :: rest) = shallow_files rest := by
  refine ⟨?_, ?_, ?_, ?_, ?_, ?_, ?_⟩
  · intro t
    rw [gafList, gafList]
    have hd : isDirNode (Node.symlink (some t)) = isDirNode t := rfl
    have hf : isFileNode (Node.symlink (some t)) = isFileNode t := rfl
    rw [hd, hf]
    by_cases h1 : isDirNode t = true
    · rw [if_pos h1, if_pos h1]
      have : gafNode (pathJoin p nm) (Node.symlink (some t)) =
        gafNode (pathJoin p nm) t := rfl
      rw [this]
    · rw [if_neg h1, if_neg h1]
  · rw [gafList]
    simp [isDirNode, isFileNode]
  · rw [gafList]
    simp [isDirNode, isFileNode]
  · intro c
    rw [gafList]
    simp [isDirNode, isFileNode]
  · intro t
    have hf : isFileNode (Node.symlink (some t)) = isFileNode t := rfl
    have hs : nodeSize (Node.symlink (some t)) = nodeSize t := rfl
    rw [shallow_files, shallow_files, List.filter_cons, List.filter_cons, hf]
    by_cases h1 : isFileNode t = true
    · rw [if_pos h1, if_pos h1]
      simp [hs]
    · rw [if_neg h1, if_neg h1]
  · rw [shallow_files, shallow_files, List.filter_cons]
    simp [isFileNode]
  · rw [shallow_files, shallow_files, List.filter_cons]
    simp [isFileNode]

/-! ## Size parsing and argument validation -/

/-- ASCII whitespace, for `str.strip()` and the regex class `\s`. -/
def isSpaceChar (c : Char) : Bool :=
  c == ' ' || c == '\t' || c == '\n' || c == '\r' || c == '\x0b' || c == '\x0c'

/-- `size_str.strip()`. -/
def stripWS (cs : List Char) : List Char :=
  ((cs.dropWhile isSpaceChar).reverse.dropWhile isSpaceChar).reverse

/-- Multiplier of a lower-cased unit suffix (`SIZE_UNITS`, lines 25-31); the
empty unit defaults to bytes; anything else fails the regex. -/
def unitMult : List Char → Option Nat
  | [] => some 1
  | ['b'] => some 1
  | ['k', 'b'] => some 1024
  | ['m', 'b'] => some (1024 ^ 2)
  | ['g', 'b'] => some (1024 ^ 3)
  | ['t', 'b'] => some (1024 ^ 4)
  | _ => none

/-- The tail of `parse_size` after the numeric part: `\s*(B|KB|MB|GB|TB)?$`
(case-insensitive), then `int(num * SIZE_UNITS[unit])` computed exactly
(`num = intPart.fracPart`, truncation is floor for non-negative values). -/
def parseSizeTail (intPart frac rest : List Char) : Option Nat :=
  let unitChars := (rest.dropWhile isSpaceChar).map Char.toLower
  match unitMult unitChars with
  | some mult => some (digitsVal (intPart ++ frac) * mult / 10 ^ frac.length)
  | none => none

/-- `parse_size` of `split_dir.py` (lines 34-46): match the stripped input
against `^(\d+(?:\.\d+)?)\s*(B|KB|MB|GB|TB)?$` (case-insensitive) and convert
to bytes; `none` models the raised `typer.BadParameter`. -/
def parse_size (s : String) : Option Nat :=
  let cs := stripWS s.data
  let intPart := cs.takeWhile Char.isDigit
  let rest1 := cs.dropWhile Char.isDigit
  if intPart.isEmpty then none
  else
    match rest1 with
    | '.' :: r2 =>
      let frac := r2.takeWhile Char.isDigit
      let rest2 := r2.dropWhile Char.isDigit
      if frac.isEmpty then none
      else parseSizeTail intPart frac rest2
    | r => parseSizeTail intPart [] r

/-- `is_subpath` (`consolidate_files.py` lines 52-58): on resolved absolute
paths, `child.relative_to(parent)` succeeds iff the parent's components are a
prefix of the child's. -/
def is_subpath (child parent : List String) : Bool := parent.isPrefixOf child

/-- Which violation `check_path_overlap` reports. -/
inductive OverlapError where
  | sameDir
  | targetInsideSource
  | sourceInsideTarget
deriving DecidableEq, Repr

/-- `check_path_overlap` (lines 29-49): scan the sources in order and raise
`typer.BadParameter` on the first that equals the target, contains it, or is
contained in it. -/
def check_path_overlap (target : List String) (sources : List (List String)) :
    Option OverlapError :=
  sources.findSome? (fun src =>
    if target = src then some .sameDir
    else if is_subpath target src then some .targetInsideSource
    else if is_subpath src target then some .sourceInsideTarget
    else none)

/-- How a run ends: a `typer.Exit(code)` (or falling off the end of `main`,
which is code 0), or a raised `typer.BadParameter`. -/
inductive Outcome where
  | exited (code : Nat)
  | badParameter
deriving DecidableEq, Repr

/-- The process exit code of an outcome.  `typer.BadParameter` is Click's
`BadParameter`, a subclass of `UsageError`; Click's standalone entry point
exits with `UsageError.exit_code = 2`.  A `typer.Exit(code)` exits with
`code`. -/
def typer_exit_code : Outcome → Nat
  | .exited c => c
  | .badParameter => 2

/-! ## The two `main` routines in execute (non-dry-run) mode -/

/-- Lines 176-190 of `split_dir.py`: the planned move operations, batch by
batch, batch `i` going into the directory named `str(start_num + i + 1)`. -/
def mkSplitOps (dirPath : String) (startNum : Nat) (bins : List Bin) :
    List (String × String) :=
  bins.enum.flatMap (fun ib =>
    ib.2.1.map (fun f =>
      (pathJoin dirPath f.1,
       pathJoin (pathJoin dirPath (natToStr (startNum + ib.1 + 1))) f.1)))

/-- `split_dir.py` `main` (lines 96-222) in execute mode, over the directory
listing `entries` (name, kind, size) and the file map `fs`.  The `mkdir`
calls create directories only, which the file map does not track. -/
def split_main (ro : RenameOutcome) (corrupt : Content → Content)
    (dirExists isDir : Bool) (sizeStr : String) (dirPath : String)
    (entries : List (String × EntryKind × Nat)) (fs : FS) : Outcome × FS :=
  if ¬dirExists then (.exited 1, fs)
  else if ¬isDir then (.exited 1, fs)
  else
    match parse_size sizeStr with
    | none => (.badParameter, fs)
    | some maxSize =>
      if maxSize ≤ 0 then (.exited 1, fs)
      else
        let startNum := find_max_numbered_dir (entries.map (fun e => (e.1, e.2.1)))
        let files := (entries.filter
          (fun e => decide (e.2.1 = EntryKind.fileE))).map (fun e => (e.1, e.2.2))
        if files.isEmpty then (.exited 0, fs)
        else
          let ops := mkSplitOps dirPath startNum (packBins files maxSize)
          match execute_ops_split ro corrupt fs ops with
          | (fs', _, some _) => (.exited 1, fs')
          | (fs', _, none) => (.exited 0, fs')

/-- `consolidate_files.py` `main` (lines 133-223) in execute mode.
`targetR`/`sourcesR` are the resolved paths fed to the overlap check,
`targetEntries` the names already present in the target directory (they seed
the claim set, lines 158-160, and are also what `candidate.exists()` can see
while planning), and `scanned` the files discovered under the sources in
order (full source path, basename). -/
def consolidate_main (ro : RenameOutcome) (corrupt : Content → Content)
    (hash : Content → Nat) (verify : Bool)
    (targetR : List String) (sourcesR : List (List String))
    (targetDir : String) (targetEntries : List String)
    (scanned : List (String × String)) (fs : FS) : Outcome × FS :=
  if sourcesR.isEmpty then (.badParameter, fs)
  else
    match check_path_overlap targetR sourcesR with
    | some _ => (.badParameter, fs)
    | none =>
      let seed := targetEntries.map (fun n => pathJoin targetDir n)
      let dests := (plan_dests seed targetDir seed (scanned.map (fun s => s.2))).1
      let ops := (scanned.map (fun s => s.1)).zip dests
      if ops.isEmpty then (.exited 0, fs)
      else
        match execute_ops ro corrupt hash verify fs ops with
        | (fs', _, some _) => (.exited 1, fs')
        | (fs', _, none) => (.exited 0, fs')

/-- The overlap check passes exactly when no source equals, contains, or is
contained in the target. -/
theorem check_path_overlap_none_iff (t : List String) (ss : List (List String)) :
    check_path_overlap t ss = none ↔
      ∀ s ∈ ss, t ≠ s ∧ is_subpath t s = false ∧ is_subpath s t = false := by
  induction ss with
  | nil => simp [check_path_overlap]
  | cons s rest ih =>
    rw [check_path_overlap, List.findSome?_cons]
    rw [check_path_overlap] at ih
    by_cases h1 : t = s
    · simp only [h1, if_pos rfl]
      simp
    · rw [if_neg h1]
      by_cases h2 : is_subpath t s = true
      · rw [if_pos h2]
        simp only [List.mem_cons]
        constructor
        · intro h; exact absurd h (by simp)
        · intro h
          have := (h s (Or.inl rfl)).2.1
          rw [h2] at this
          cases this
      · rw [if_neg h2]
        by_cases h3 : is_subpath s t = true
        · rw [if_pos h3]
          simp only [List.mem_cons]
          constructor
          · intro h; exact absurd h (by simp)
          · intro h
            have := (h s (Or.inl rfl)).2.2
            rw [h3] at this
            cases this
        · rw [if_neg h3]
          rw [ih]
          simp only [List.mem_cons]
          constructor
          · intro h s' hs'
            rcases hs' with rfl | hs'
            · exact ⟨h1, by simpa using h2, by simpa using h3⟩
            · exact h s' hs'
          · intro h s' hs'
            exact h s' (Or.inr hs')

/-- C9 as stated is false on the exit code: the concrete invocation
`split_dir d --split-size abc` (with `d` an existing directory holding one
file) fails fast with a raised `typer.BadParameter` — whose process exit code
under Click is 2, not 1 — leaving the filesystem untouched. -/
theorem claim_c9_counterexample :
    split_main .renameOk id true true "abc" "d" [("x", EntryKind.fileE, 5)]
      [("d/x", [1])] = (Outcome.badParameter, [("d/x", [1])]) ∧
    typer_exit_code Outcome.badParameter = 2 ∧
    typer_exit_code Outcome.badParameter ≠ 1 := by
  refine ⟨by decide, rfl, by decide⟩

/-- C9 amended: an invalid argument combination still fails fast, before any
filesystem mutation, but with exit code 2 (Click's usage-error code for
`typer.BadParameter`) rather than 1 — for split a malformed size string, for
consolidate an overlapping target/source pair (the overlap check accepts
exactly when no source equals, contains, or is contained in the resolved
target); a size that parses to a non-positive byte count exits 1; exit code 0
is returned on success or empty input, and a failed move exits 1. -/
theorem claim_c9_exit_codes :
    (∀ (ro : RenameOutcome) (corrupt : Content → Content) (sizeStr dp : String)
        (entries : List (String × EntryKind × Nat)) (fs : FS),
      parse_size sizeStr = none →
      split_main ro corrupt true true sizeStr dp entries fs = (.badParameter, fs) ∧
      typer_exit_code (split_main ro corrupt true true sizeStr dp entries fs).1 = 2) ∧
    (∀ (ro : RenameOutcome) (corrupt : Content → Content) (sizeStr dp : String)
        (entries : List (String × EntryKind × Nat)) (fs : FS),
      parse_size sizeStr = some 0 →
      split_main ro corrupt true true sizeStr dp entries fs = (.exited 1, fs)) ∧
    (∀ (ro : RenameOutcome) (corrupt : Content → Content) (sizeStr dp : String)
        (entries : List (String × EntryKind × Nat)) (fs : FS) (m : Nat),
      parse_size sizeStr = some m → 0 < m →
      ((entries.filter (fun e => decide (e.2.1 = EntryKind.fileE))).map
        (fun e => (e.1, e.2.2))).isEmpty = true →
      split_main ro corrupt true true sizeStr dp entries fs = (.exited 0, fs)) ∧
    (∀ (ro : RenameOutcome) (corrupt : Content → Content) (hash : Content → Nat)
        (verify : Bool) (tR : List String) (sR : List (List String))
        (tD : String) (tE : List String) (scanned : List (String × String))
        (fs : FS) (e : OverlapError),
      check_path_overlap tR sR = some e →
      consolidate_main ro corrupt hash verify tR sR tD tE scanned fs =
        (.badParameter, fs) ∧
      typer_exit_code
        (consolidate_main ro corrupt hash verify tR sR tD tE scanned fs).1 = 2) ∧
    (∀ (t : List String) (ss : List (List String)),
      check_path_overlap t ss = none ↔
        ∀ s ∈ ss, t ≠ s ∧ is_subpath t s = false ∧ is_subpath s t = false) ∧
    (∀ (ro : RenameOutcome) (corrupt : Content → Content) (sizeStr dp : String)
        (entries : List (String × EntryKind × Nat)) (fs fs' : FS) (m n : Nat)
        (r : Option ((String × String) × MoveError)),
      parse_size sizeStr = some m → 0 < m →
      ((entries.filter (fun e => decide (e.2.1 = EntryKind.fileE))).map
        (fun e => (e.1, e.2.2))).isEmpty = false →
      execute_ops_split ro corrupt fs
        (mkSplitOps dp
          (find_max_numbered_dir (entries.map (fun e => (e.1, e.2.1))))
          (packBins ((entries.filter (fun e => decide (e.2.1 = EntryKind.fileE))).map
            (fun e => (e.1, e.2.2))) m)) = (fs', n, r) →
      split_main ro corrupt true true sizeStr dp entries fs =
        (if r.isSome then Outcome.exited 1 else Outcome.exited 0, fs')) := by
  refine ⟨?_, ?_, ?_, ?_, check_path_overlap_none_iff, ?_⟩
  · intro ro corrupt sizeStr dp entries fs h
    constructor
    · simp [split_main, h]
    · simp [split_main, h, typer_exit_code]
  · intro ro corrupt sizeStr dp entries fs h
    simp [split_main, h]
  · intro ro corrupt sizeStr dp entries fs m h hm hfe
    simp [split_main, h, hfe, Nat.not_le.mpr hm]
  · intro ro corrupt hash verify tR sR tD tE scanned fs e h
    have hne : sR.isEmpty = false := by
      cases sR with
      | nil => rw [check_path_overlap] at h; simp at h
      | cons s rest => rfl
    constructor
    · simp [consolidate_main, h, hne]
    · simp [consolidate_main, h, hne, typer_exit_code]
  · intro ro corrupt sizeStr dp entries fs fs' m n r h hm hfe hexec
    have hms : ¬ m ≤ 0 := by omega
    simp only [split_main, h, hms, hfe, not_true, Bool.false_eq_true, if_false]
    rw [hexec]
    cases r with
    | none => simp
    | some e => simp

/-- Witness for C9: the invalid size string `"abc"` makes the split tool fail
fast with `BadParameter` (exit code 2), before touching the filesystem. -/
theorem claim_c9_witness :
    split_main .renameOk id true true "abc" "d" [] [] = (.badParameter, []) ∧
    typer_exit_code (split_main .renameOk id true true "abc" "d" [] []).1 = 2 :=
  claim_c9_exit_codes.1 .renameOk id "abc" "d" [] [] (by decide)

/-- C5: execution applies the planned moves strictly in planning order, one at
a time.  If every move of a prefix `pre` succeeds and the next operation `op`
fails, the run's result is exactly the result after `pre` and the failing
`op` — whatever operations follow are never attempted — the completed count
equals `pre.length`, and the run then exits with status 1 (status 0 with the
full count when every move succeeds). -/
theorem claim_c5_sequential_stop_on_failure :
    (∀ (ro : RenameOutcome) (corrupt : Content → Content) (hash : Content → Nat)
        (verify : Bool) (op : String × String) (post : List (String × String))
        (e : MoveError) (fs₂ : FS) (tr : List Ev) (pre : List (String × String))
        (fs fs₁ : FS) (n : Nat),
      execute_ops ro corrupt hash verify fs pre = (fs₁, n, none) →
      move_file ro corrupt hash verify fs₁ op.1 op.2 = (some e, fs₂, tr) →
      execute_ops ro corrupt hash verify fs (pre ++ op :: post) =
        (fs₂, n, some (op, e)) ∧ n = pre.length) ∧
    (∀ (ro : RenameOutcome) (corrupt : Content → Content) (op : String × String)
        (post : List (String × String)) (e : MoveError) (fs₂ : FS) (tr : List Ev)
        (pre : List (String × String)) (fs fs₁ : FS) (n : Nat),
      execute_ops_split ro corrupt fs pre = (fs₁, n, none) →
      move_file_split ro corrupt fs₁ op.1 op.2 = (some e, fs₂, tr) →
      execute_ops_split ro corrupt fs (pre ++ op :: post) =
        (fs₂, n, some (op, e)) ∧ n = pre.length) ∧
    (∀ (ro : RenameOutcome) (corrupt : Content → Content) (hash : Content → Nat)
        (verify : Bool) (ops : List (String × String)) (fs fs' : FS) (n : Nat),
      execute_ops ro corrupt hash verify fs ops = (fs', n, none) → n = ops.length) ∧
    (∀ (ro : RenameOutcome) (corrupt : Content → Content)
        (ops : List (String × String)) (fs fs' : FS) (n : Nat),
      execute_ops_split ro corrupt fs ops = (fs', n, none) → n = ops.length) ∧
    (∀ (ro : RenameOutcome) (corrupt : Content → Content) (hash : Content → Nat)
        (verify : Bool) (tR : List String) (sR : List (List String)) (tD : String)
        (tE : List String) (scanned : List (String × String)) (fs fs' : FS)
        (n : Nat) (r : Option ((String × String) × MoveError)),
      sR.isEmpty = false →
      check_path_overlap tR sR = none →
      ((scanned.map (fun s => s.1)).zip
          (plan_dests (tE.map (fun nm => pathJoin tD nm)) tD
            (tE.map (fun nm => pathJoin tD nm)) (scanned.map (fun s => s.2))).1).isEmpty
        = false →
      execute_ops ro corrupt hash verify fs
        ((scanned.map (fun s => s.1)).zip
          (plan_dests (tE.map (fun nm => pathJoin tD nm)) tD
            (tE.map (fun nm => pathJoin tD nm)) (scanned.map (fun s => s.2))).1) =
        (fs', n, r) →
      consolidate_main ro corrupt hash verify tR sR tD tE scanned fs =
        (if r.isSome then Outcome.exited 1 else Outcome.exited 0, fs')) ∧
    (∀ (ro : RenameOutcome) (corrupt : Content → Content) (sizeStr dp : String)
        (entries : List (String × EntryKind × Nat)) (fs fs' : FS) (m n : Nat)
        (r : Option ((String × String) × MoveError)),
      parse_size sizeStr = some m → 0 < m →
      ((entries.filter (fun e => decide (e.2.1 = EntryKind.fileE))).map
        (fun e => (e.1, e.2.2))).isEmpty = false →
      execute_ops_split ro corrupt fs
        (mkSplitOps dp
          (find_max_numbered_dir (entries.map (fun e => (e.1, e.2.1))))
          (packBins ((entries.filter (fun e => decide (e.2.1 = EntryKind.fileE))).map
            (fun e => (e.1, e.2.2))) m)) = (fs', n, r) →
      (r.isSome = true →
        split_main ro corrupt true true sizeStr dp entries fs = (.exited 1, fs')) ∧
      (r.isSome = false →
        split_main ro corrupt true true sizeStr dp entries fs = (.exited 0, fs'))) := by
  refine ⟨?_, ?_, execute_ops_success_length, execute_ops_split_success_length, ?_, ?_⟩
  · intro ro corrupt hash verify op post e fs₂ tr pre fs fs₁ n hpre hop
    exact ⟨execute_ops_halt ro corrupt hash verify op post e fs₂ tr pre fs fs₁ n hpre hop,
      execute_ops_success_length ro corrupt hash verify pre fs fs₁ n hpre⟩
  · intro ro corrupt op post e fs₂ tr pre fs fs₁ n hpre hop
    exact ⟨execute_ops_split_halt ro corrupt op post e fs₂ tr pre fs fs₁ n hpre hop,
      execute_ops_split_success_length ro corrupt pre fs fs₁ n hpre⟩
  · intro ro corrupt hash verify tR sR tD tE scanned fs fs' n r hne hchk hoe hexec
    simp only [consolidate_main, hne, hchk, hoe, Bool.false_eq_true, if_false]
    rw [hexec]
    cases r with
    | none => simp
    | some e => simp
  · intro ro corrupt sizeStr dp entries fs fs' m n r h hm hfe hexec
    have hms : ¬ m ≤ 0 := by omega
    constructor
    · intro hr
      simp only [split_main, h, hms, hfe, not_true, Bool.false_eq_true, if_false]
      rw [hexec]
      cases r with
      | none => simp at hr
      | some e => simp
    · intro hr
      simp only [split_main, h, hms, hfe, not_true, Bool.false_eq_true, if_false]
      rw [hexec]
      cases r with
      | none => simp
      | some e => simp at hr

/-- Witness for C5: a concrete three-operation plan whose second move fails
(destination already exists) stops right there with one completed move; the
third operation is never attempted. -/
theorem claim_c5_witness :
    execute_ops .renameOk id (fun c => c.length) false
      [("s1", [1]), ("s2", [2]), ("d2", [9])]
      ([("s1", "d1")] ++ ("s2", "d2") :: [("s3", "d3")]) =
      ([("d1", [1]), ("s2", [2]), ("d2", [9])], 1,
        some (("s2", "d2"), MoveError.destinationExists)) ∧
    1 = [("s1", "d1")].length :=
  claim_c5_sequential_stop_on_failure.1 .renameOk id (fun c => c.length) false
    ("s2", "d2") [("s3", "d3")] .destinationExists
    [("d1", [1]), ("s2", [2]), ("d2", [9])] []
    [("s1", "d1")] [("s1", [1]), ("s2", [2]), ("d2", [9])]
    [("d1", [1]), ("s2", [2]), ("d2", [9])] 1
    (by decide) (by decide)

end Toolbox
